import Mathlib

/-!
Verification of the wine-quality notebook (`src/notebooks/3. Models - Serving.ipynb`).

The notebook's own code is sequential glue: read a semicolon-delimited CSV,
split it 75/25, fit an ElasticNet regression, compute (RMSE, MAE, R²) with
`eval_metrics`, log the run to a tracking store, and invoke the served model
over HTTP with a hard-coded JSON body.  Numeric values are modelled by `ℝ`;
tables by lists of rows.  Library calls whose source is not part of this
repository (`mean_squared_error`, `mean_absolute_error`, `r2_score`,
`train_test_split`, the numpy global RNG, the ElasticNet fit) are modelled
from their documented formulas, as the spec states them.
-/

namespace WineQuality

/-- mean of a numeric sequence, `sum / length` (numpy-style; `x / 0 = 0` for the
empty sequence, which never occurs in the notebook). -/
noncomputable def meanList (xs : List ℝ) : ℝ := xs.sum / xs.length

/-- Modelled from the spec: scikit-learn `mean_squared_error` (library code, not in
`src/`) — the mean of the squared differences `actual[i] - pred[i]`. -/
noncomputable def mean_squared_error (actual pred : List ℝ) : ℝ :=
  (List.zipWith (fun a p => (a - p) ^ 2) actual pred).sum / actual.length

/-- Modelled from the spec: scikit-learn `mean_absolute_error` (library code, not in
`src/`) — the mean of the absolute differences. -/
noncomputable def mean_absolute_error (actual pred : List ℝ) : ℝ :=
  (List.zipWith (fun a p => |a - p|) actual pred).sum / actual.length

/-- residual sum of squares of a prediction against the ground truth. -/
noncomputable def residualSumSquares (actual pred : List ℝ) : ℝ :=
  (List.zipWith (fun a p => (a - p) ^ 2) actual pred).sum

/-- total sum of squares of the ground truth about its mean. -/
noncomputable def totalSumSquares (actual : List ℝ) : ℝ :=
  (actual.map (fun a => (a - meanList actual) ^ 2)).sum

/-- Modelled from the spec: scikit-learn `r2_score` (library code, not in `src/`) —
the standard coefficient of determination, `1 - RSS / TSS`. -/
noncomputable def r2_score (actual pred : List ℝ) : ℝ :=
  1 - residualSumSquares actual pred / totalSumSquares actual

/-- `eval_metrics` from notebook cell 6:
`rmse = np.sqrt(mean_squared_error(actual, pred))`,
`mae = mean_absolute_error(actual, pred)`,
`r2 = r2_score(actual, pred)`, returned as the triple `(rmse, mae, r2)`. -/
noncomputable def eval_metrics (actual pred : List ℝ) : ℝ × ℝ × ℝ :=
  (Real.sqrt (mean_squared_error actual pred),
   mean_absolute_error actual pred,
   r2_score actual pred)

/-- a `zipWith` sum over two equal-length lists is the indexed `Finset.range` sum. -/
theorem zipWith_sum_eq_finset (f : ℝ → ℝ → ℝ) :
    ∀ (l1 l2 : List ℝ), l1.length = l2.length →
      (List.zipWith f l1 l2).sum =
        ∑ i ∈ Finset.range l1.length, f (l1.getD i 0) (l2.getD i 0) := by
  intro l1
  induction l1 with
  | nil => intro l2 h; simp
  | cons a t ih =>
    intro l2 h
    cases l2 with
    | nil => simp at h
    | cons b t2 =>
      simp only [List.length_cons] at h
      have ht : t.length = t2.length := by omega
      simp only [List.zipWith_cons_cons, List.sum_cons, List.length_cons,
        Finset.sum_range_succ']
      rw [ih t2 ht]
      simp [List.getD_cons_succ, List.getD_cons_zero, add_comm]

/-- a `map` sum over a list is the indexed `Finset.range` sum. -/
theorem map_sum_eq_finset (g : ℝ → ℝ) :
    ∀ (l : List ℝ), (l.map g).sum = ∑ i ∈ Finset.range l.length, g (l.getD i 0) := by
  intro l
  induction l with
  | nil => simp
  | cons a t ih =>
    simp only [List.map_cons, List.sum_cons, List.length_cons, Finset.sum_range_succ']
    rw [ih]
    simp [List.getD_cons_succ, List.getD_cons_zero, add_comm]

/-- C1: for every pair of equal-length non-empty numeric sequences `(actual, pred)`,
`eval_metrics` returns the triple `(rmse, mae, r2)` where `rmse` is the square root
of the mean of the squared differences `actual[i] - pred[i]`, `mae` is the mean of
the absolute differences, and `r2` equals `1` minus the residual sum of squares
divided by the total sum of squares about the mean of `actual`. -/
theorem eval_metrics_spec (actual pred : List ℝ) (hne : actual ≠ [])
    (hlen : actual.length = pred.length) :
    eval_metrics actual pred =
      (Real.sqrt ((∑ i ∈ Finset.range actual.length,
          (actual.getD i 0 - pred.getD i 0) ^ 2) / actual.length),
       (∑ i ∈ Finset.range actual.length,
          |actual.getD i 0 - pred.getD i 0|) / actual.length,
       1 - (∑ i ∈ Finset.range actual.length, (actual.getD i 0 - pred.getD i 0) ^ 2) /
           (∑ i ∈ Finset.range actual.length,
              (actual.getD i 0 - actual.sum / actual.length) ^ 2)) := by
  unfold eval_metrics mean_squared_error mean_absolute_error r2_score
    residualSumSquares totalSumSquares meanList
  rw [zipWith_sum_eq_finset _ actual pred hlen,
      zipWith_sum_eq_finset _ actual pred hlen,
      map_sum_eq_finset]

/-- witness for C1 at `actual = [1, 2]`, `pred = [3, 4]`. -/
theorem eval_metrics_spec_witness :
    ([(1 : ℝ), 2] ≠ []) ∧
    eval_metrics [(1 : ℝ), 2] [3, 4] =
      (Real.sqrt ((∑ i ∈ Finset.range (List.length [(1 : ℝ), 2]),
          (List.getD [(1 : ℝ), 2] i 0 - List.getD [(3 : ℝ), 4] i 0) ^ 2) /
            (List.length [(1 : ℝ), 2])),
       (∑ i ∈ Finset.range (List.length [(1 : ℝ), 2]),
          |List.getD [(1 : ℝ), 2] i 0 - List.getD [(3 : ℝ), 4] i 0|) /
            (List.length [(1 : ℝ), 2]),
       1 - (∑ i ∈ Finset.range (List.length [(1 : ℝ), 2]),
              (List.getD [(1 : ℝ), 2] i 0 - List.getD [(3 : ℝ), 4] i 0) ^ 2) /
           (∑ i ∈ Finset.range (List.length [(1 : ℝ), 2]),
              (List.getD [(1 : ℝ), 2] i 0 -
                List.sum [(1 : ℝ), 2] / (List.length [(1 : ℝ), 2])) ^ 2)) :=
  ⟨by simp, eval_metrics_spec [1, 2] [3, 4] (by simp) rfl⟩

/-- expanding a sum of squared deviations from a constant. -/
theorem sum_sq_dev (n : ℕ) (r : ℕ → ℝ) (m : ℝ) :
    ∑ i ∈ Finset.range n, (r i - m) ^ 2 =
      (∑ i ∈ Finset.range n, r i ^ 2) - 2 * m * (∑ i ∈ Finset.range n, r i) + n * m ^ 2 := by
  induction n with
  | zero => simp
  | succ k ih =>
    rw [Finset.sum_range_succ, Finset.sum_range_succ, Finset.sum_range_succ, ih]
    push_cast
    ring

/-- zipping a list with a constant list of its own length is a map. -/
theorem zipWith_replicate_len (f : ℝ → ℝ → ℝ) (c : ℝ) :
    ∀ (l : List ℝ), List.zipWith f l (List.replicate l.length c) = l.map (fun a => f a c) := by
  intro l
  induction l with
  | nil => simp
  | cons a t ih => simp [List.replicate_succ, ih]

/-- C5: for every pair of equal-length non-empty numeric sequences, the `rmse`
returned by `eval_metrics` is non-negative and bounds the `mae` from above, and
they are equal only when every residual has the same magnitude. -/
theorem rmse_ge_mae (actual pred : List ℝ) (hne : actual ≠ [])
    (hlen : actual.length = pred.length) :
    0 ≤ (eval_metrics actual pred).1 ∧
    (eval_metrics actual pred).2.1 ≤ (eval_metrics actual pred).1 ∧
    ((eval_metrics actual pred).1 = (eval_metrics actual pred).2.1 →
      ∀ i j, i < actual.length → j < actual.length →
        |actual.getD i 0 - pred.getD i 0| = |actual.getD j 0 - pred.getD j 0|) := by
  have hn : 0 < actual.length := List.length_pos.mpr hne
  set n := actual.length with hdefn
  have hnR : (0 : ℝ) < n := by exact_mod_cast hn
  set r : ℕ → ℝ := fun i => |actual.getD i 0 - pred.getD i 0| with hdefr
  have hms : mean_squared_error actual pred = (∑ i ∈ Finset.range n, r i ^ 2) / n := by
    unfold mean_squared_error
    rw [zipWith_sum_eq_finset _ actual pred hlen]
    congr 1
    exact Finset.sum_congr rfl fun i _ => (sq_abs _).symm
  have hmae : mean_absolute_error actual pred = (∑ i ∈ Finset.range n, r i) / n := by
    unfold mean_absolute_error
    rw [zipWith_sum_eq_finset _ actual pred hlen]
  have hmae_nonneg : 0 ≤ mean_absolute_error actual pred := by
    rw [hmae]
    have : 0 ≤ ∑ i ∈ Finset.range n, r i := Finset.sum_nonneg fun i _ => abs_nonneg _
    positivity
  have hms_nonneg : 0 ≤ mean_squared_error actual pred := by
    rw [hms]
    have : 0 ≤ ∑ i ∈ Finset.range n, r i ^ 2 := Finset.sum_nonneg fun i _ => sq_nonneg _
    positivity
  have hCS : (∑ i ∈ Finset.range n, r i) ^ 2 ≤ n * ∑ i ∈ Finset.range n, r i ^ 2 := by
    have h := sq_sum_le_card_mul_sum_sq (s := Finset.range n) (f := r)
    simpa using h
  have hmae_sq : (mean_absolute_error actual pred) ^ 2 ≤ mean_squared_error actual pred := by
    rw [hmae, hms, div_pow, div_le_div_iff (by positivity) hnR]
    have h2 := mul_le_mul_of_nonneg_right hCS hnR.le
    nlinarith [h2]
  refine ⟨Real.sqrt_nonneg _, ?_, ?_⟩
  · exact (Real.le_sqrt hmae_nonneg hms_nonneg).mpr hmae_sq
  · intro heq i j hi hj
    have heq2 : Real.sqrt (mean_squared_error actual pred) =
        mean_absolute_error actual pred := heq
    have hsq : Real.sqrt (mean_squared_error actual pred) ^ 2 =
        mean_squared_error actual pred := Real.sq_sqrt hms_nonneg
    rw [heq2] at hsq
    have hS1 : ∑ i ∈ Finset.range n, r i = n * mean_absolute_error actual pred := by
      rw [hmae]
      field_simp
    have hS2 : ∑ i ∈ Finset.range n, r i ^ 2 =
        n * (mean_absolute_error actual pred) ^ 2 := by
      have := hms
      rw [← hsq] at this
      rw [eq_div_iff hnR.ne'] at this
      linarith [this]
    have hzero : ∑ i ∈ Finset.range n, (r i - mean_absolute_error actual pred) ^ 2 = 0 := by
      rw [sum_sq_dev, hS1, hS2]
      ring
    have hall := (Finset.sum_eq_zero_iff_of_nonneg
      (fun k _ => sq_nonneg (r k - mean_absolute_error actual pred))).mp hzero
    have hri : r i = mean_absolute_error actual pred := by
      have h := hall i (Finset.mem_range.mpr hi)
      have := sq_eq_zero_iff.mp h
      linarith [this]
    have hrj : r j = mean_absolute_error actual pred := by
      have h := hall j (Finset.mem_range.mpr hj)
      have := sq_eq_zero_iff.mp h
      linarith [this]
    show r i = r j
    rw [hri, hrj]

/-- witness for C5 at `actual = [0, 0]`, `pred = [3, 4]`. -/
theorem rmse_ge_mae_witness :
    ([(0 : ℝ), 0] ≠ []) ∧
    (0 ≤ (eval_metrics [(0 : ℝ), 0] [3, 4]).1 ∧
     (eval_metrics [(0 : ℝ), 0] [3, 4]).2.1 ≤ (eval_metrics [(0 : ℝ), 0] [3, 4]).1 ∧
     ((eval_metrics [(0 : ℝ), 0] [3, 4]).1 = (eval_metrics [(0 : ℝ), 0] [3, 4]).2.1 →
       ∀ i j, i < List.length [(0 : ℝ), 0] → j < List.length [(0 : ℝ), 0] →
         |List.getD [(0 : ℝ), 0] i 0 - List.getD [(3 : ℝ), 4] i 0| =
           |List.getD [(0 : ℝ), 0] j 0 - List.getD [(3 : ℝ), 4] j 0|)) :=
  ⟨by simp, rmse_ge_mae [0, 0] [3, 4] (by simp) rfl⟩

/-- C6: on a perfect prediction (`pred = actual`, element-wise) over a non-empty
sequence, the `r2` component returned by `eval_metrics` equals exactly `1`. -/
theorem r2_perfect_prediction (actual : List ℝ) (hne : actual ≠ []) :
    (eval_metrics actual actual).2.2 = 1 := by
  simp [eval_metrics, r2_score, residualSumSquares, List.zipWith_same]

/-- witness for C6 at `actual = [5]`. -/
theorem r2_perfect_prediction_witness :
    ([(5 : ℝ)] ≠ []) ∧ (eval_metrics [(5 : ℝ)] [(5 : ℝ)]).2.2 = 1 :=
  ⟨by simp, r2_perfect_prediction [5] (by simp)⟩

/-- C7 counterexample: on the constant sequence `actual = [2, 2]` the constant-mean
predictor is a perfect prediction, so the `r2` component returned by `eval_metrics`
is `1`, not `0` as the claim states (the total sum of squares vanishes). -/
theorem r2_constant_mean_counterexample :
    (eval_metrics [(2 : ℝ), 2]
        (List.replicate (List.length [(2 : ℝ), 2]) (meanList [(2 : ℝ), 2]))).2.2 = 1 ∧
    (eval_metrics [(2 : ℝ), 2]
        (List.replicate (List.length [(2 : ℝ), 2]) (meanList [(2 : ℝ), 2]))).2.2 ≠ 0 := by
  constructor <;>
    norm_num [eval_metrics, r2_score, residualSumSquares, totalSumSquares, meanList,
      List.replicate_succ]

/-- C7 (amended): for every non-empty sequence `actual` that is not constant (its
total sum of squares about the mean is nonzero), predicting the mean of `actual`
at every index makes the `r2` component returned by `eval_metrics` exactly `0`. -/
theorem r2_constant_mean_predictor (actual : List ℝ) (hne : actual ≠ [])
    (htss : totalSumSquares actual ≠ 0) :
    (eval_metrics actual (List.replicate actual.length (meanList actual))).2.2 = 0 := by
  have hrss : residualSumSquares actual (List.replicate actual.length (meanList actual)) =
      totalSumSquares actual := by
    unfold residualSumSquares totalSumSquares
    rw [zipWith_replicate_len]
  simp [eval_metrics, r2_score, hrss, div_self htss]

/-- witness for C7 at `actual = [1, 3]` (mean `2`, total sum of squares `2`). -/
theorem r2_constant_mean_predictor_witness :
    (([(1 : ℝ), 3] ≠ []) ∧ totalSumSquares [(1 : ℝ), 3] ≠ 0) ∧
    (eval_metrics [(1 : ℝ), 3]
        (List.replicate (List.length [(1 : ℝ), 3]) (meanList [(1 : ℝ), 3]))).2.2 = 0 :=
  ⟨⟨by simp, by norm_num [totalSumSquares, meanList]⟩,
   r2_constant_mean_predictor [1, 3] (by simp) (by norm_num [totalSumSquares, meanList])⟩

/-- Modelled from the spec: scikit-learn's metric functions validate that their two
inputs have consistent lengths before computing anything and fail fast with
`ValueError: Found input variables with inconsistent numbers of samples ...`
otherwise.  The first library call inside `eval_metrics` performs this check, so a
mismatched pair raises before any metric is returned; equal-length input is the
only validated condition. -/
noncomputable def eval_metricsChecked (actual pred : List ℝ) : Except String (ℝ × ℝ × ℝ) :=
  if actual.length = pred.length then
    Except.ok (eval_metrics actual pred)
  else
    Except.error "Found input variables with inconsistent numbers of samples"

/-- C10: `eval_metrics` fails fast with a diagnostic exactly when the two input
sequences have different lengths; mismatched length is its only error condition. -/
theorem eval_metrics_length_check (actual pred : List ℝ) :
    (∃ msg, eval_metricsChecked actual pred = Except.error msg) ↔
      actual.length ≠ pred.length := by
  unfold eval_metricsChecked
  by_cases h : actual.length = pred.length <;> simp [h]

/-- the 12 named columns of the wine-quality dataset, as displayed by the notebook
(11 features followed by the integer target `quality`). -/
def datasetColumns : List String :=
  ["fixed acidity", "volatile acidity", "citric acid", "residual sugar", "chlorides",
   "free sulfur dioxide", "total sulfur dioxide", "density", "pH", "sulphates",
   "alcohol", "quality"]

/-- feature schema the model is fit with: notebook cell 7 drops the target column
(`train.drop(["quality"], axis=1)`), keeping the remaining columns in order. -/
def featureColumns : List String := datasetColumns.filter (fun c => c ≠ "quality")

/-- the `columns` field of the JSON body the notebook sends to `POST /invocations`
(cell 12's `curl` command), transcribed verbatim. -/
def curlColumns : List String :=
  ["fixed acidity", "volatile acidity", "citric acid", "residual sugar", "chlorides",
   "free sulfur dioxide", "total sulfur dioxide", "density", "pH", "sulphates",
   "alcohol"]

/-- C9: the column list sent in the inference request body exactly matches, in
names and order, the 11-column feature schema the model was fit with — the
dataset's 12 columns with the target `quality` excluded. -/
theorem curl_columns_match_features :
    curlColumns = featureColumns ∧ featureColumns.length = 11 ∧
      "quality" ∉ featureColumns := by
  refine ⟨by decide, by decide, by decide⟩

/-- names bound in the notebook before the data-acquisition cell's except handler
can run: the imports of cell 1 and the assignments of cells 3–5.  No cell binds
the name `logger`. -/
def notebookScope : List String :=
  ["os", "warnings", "sys", "glob", "shutil", "pd", "np",
   "mean_squared_error", "mean_absolute_error", "r2_score",
   "train_test_split", "ElasticNet", "mf", "mlflow", "experiment_id", "csv_url"]

/-- outcome of running a notebook cell: it finishes normally with a value,
finishes after writing a diagnostic via a logging call, or raises an exception. -/
inductive CellOutcome (α : Type) where
  | ok : α → CellOutcome α
  | logged : String → CellOutcome α
  | raised : String → CellOutcome α

/-- data-acquisition cell (cell 5): `try: data = pd.read_csv(csv_url, sep=';')`
with `except Exception as e: logger.exception("Unable to download ...", e)`.
The fetch result is a parameter; `Except.error e` models any exception raised
during fetch or parse.  Python first evaluates the name `logger` in the handler;
an unbound name raises `NameError`.  There is no retry and no fallback branch. -/
def dataAcquisition (fetch : Except String (List (List ℝ))) : CellOutcome (List (List ℝ)) :=
  match fetch with
  | Except.ok d => CellOutcome.ok d
  | Except.error e =>
      if "logger" ∈ notebookScope then
        CellOutcome.logged
          ("Unable to download training & test CSV, check your internet connection. Error: "
            ++ e)
      else
        CellOutcome.raised "NameError: name logger is not defined"

/-- C3: the claim says every data-acquisition failure writes a diagnostic message
describing the error; in the code the except handler references `logger`, which no
cell of the notebook binds, so on any fetch failure the handler itself raises
`NameError` and no diagnostic is ever written (the latent defect the spec flags in
§9).  No retry and no fallback occur on this path. -/
theorem data_acquisition_failure_raises (e : String) :
    dataAcquisition (Except.error e) =
      CellOutcome.raised "NameError: name logger is not defined" ∧
    ∀ msg, dataAcquisition (Except.error e) ≠ CellOutcome.logged msg := by
  have hm : "logger" ∉ notebookScope := by decide
  refine ⟨by simp [dataAcquisition, hm], fun msg => by simp [dataAcquisition, hm]⟩

/-- Modelled from the spec: one step of the pseudo-random stream standing in for
numpy's global Mersenne-Twister generator (library code, not in `src/`); the
claims depend only on the stream being a deterministic function of the state. -/
def lcg (s : ℕ) : ℕ := (1103515245 * s + 12345) % 2147483648

/-- Modelled from the spec: `np.random.seed(s)` (notebook cell 5) resets the global
RNG state to a value computed deterministically from the seed alone. -/
def npSeedState (s : ℕ) : ℕ := lcg s

/-- removes the element at position `k` of a list (for `k < length`), returning the
element together with the remaining list. -/
def pickAt : List ℕ → ℕ → ℕ × List ℕ
  | [], _ => (0, [])
  | a :: l, 0 => (a, l)
  | a :: l, k + 1 =>
      let p := pickAt l k
      (p.1, a :: p.2)

/-- Fisher–Yates-style shuffle driven by the RNG state: repeatedly draw the element
at position `state mod remaining-length`; the fuel is the list length, so the
recursion is structural and the shuffle evaluates by kernel reduction. -/
def shuffleGo : ℕ → ℕ → List ℕ → List ℕ
  | 0, _, xs => xs
  | _ + 1, _, [] => []
  | fuel + 1, s, x :: xs =>
      let p := pickAt (x :: xs) (s % (xs.length + 1))
      p.1 :: shuffleGo fuel (lcg s) p.2

/-- shuffle of a whole list under an RNG state. -/
def shuffle (s : ℕ) (l : List ℕ) : List ℕ := shuffleGo l.length s l

/-- number of test rows: `ceil(0.25 * n)`, scikit-learn's default `test_size`. -/
def testCount (n : ℕ) : ℕ := (n + 3) / 4

/-- Modelled from the spec: scikit-learn `train_test_split` with its default
75/25 sizes (library code, not in `src/`): permute the row indices with the
global RNG, take the first `ceil(n/4)` permuted indices as the test partition and
the remaining indices as the training partition.  Returns
`(training indices, test indices)`. -/
def train_test_split (g : ℕ) (n : ℕ) : List ℕ × List ℕ :=
  ((shuffle g (List.range n)).drop (testCount n),
   (shuffle g (List.range n)).take (testCount n))

/-- `pickAt` splits a list into the chosen element and the rest, a permutation of
the whole. -/
theorem pickAt_perm : ∀ (l : List ℕ) (k : ℕ), k < l.length →
    ((pickAt l k).1 :: (pickAt l k).2).Perm l := by
  intro l
  induction l with
  | nil => intro k h; simp at h
  | cons a t ih =>
    intro k h
    cases k with
    | zero => simp [pickAt]
    | succ k =>
      have hk : k < t.length := by
        simpa using Nat.lt_of_succ_lt_succ h
      simp only [pickAt]
      exact (List.Perm.swap a (pickAt t k).1 (pickAt t k).2).trans ((ih k hk).cons a)

/-- the shuffle is a permutation of its input. -/
theorem shuffleGo_perm : ∀ (fuel s : ℕ) (xs : List ℕ), (shuffleGo fuel s xs).Perm xs := by
  intro fuel
  induction fuel with
  | zero => intro s xs; simp [shuffleGo]
  | succ f ih =>
    intro s xs
    cases xs with
    | nil => simp [shuffleGo]
    | cons x t =>
      have hk : s % (t.length + 1) < (x :: t).length := by
        simpa using Nat.mod_lt s (Nat.succ_pos t.length)
      simp only [shuffleGo]
      exact ((ih (lcg s) _).cons _).trans (pickAt_perm (x :: t) (s % (t.length + 1)) hk)

/-- `shuffle` is a permutation of its input. -/
theorem shuffle_perm (s : ℕ) (l : List ℕ) : (shuffle s l).Perm l :=
  shuffleGo_perm l.length s l

/-- C4 (amended): for every RNG state and input row count `n`, the split returns
disjoint index sets whose sizes sum exactly to `n`; the test partition holds
exactly `ceil(n/4)` rows and the training partition the remaining `n - ceil(n/4)`,
so the ratio is exactly 75/25 when `n` is a multiple of 4 and the nearest
realisable ratio otherwise. -/
theorem train_test_split_partition (g n : ℕ) :
    (train_test_split g n).1.length + (train_test_split g n).2.length = n ∧
    (∀ i, i ∈ (train_test_split g n).1 → i ∉ (train_test_split g n).2) ∧
    (train_test_split g n).2.length = (n + 3) / 4 ∧
    (train_test_split g n).1.length = n - (n + 3) / 4 := by
  have hperm := shuffle_perm g (List.range n)
  have hlen : (shuffle g (List.range n)).length = n := by
    rw [hperm.length_eq, List.length_range]
  have hnodup : (shuffle g (List.range n)).Nodup :=
    hperm.symm.nodup (List.nodup_range n)
  have htc : testCount n ≤ n := by unfold testCount; omega
  refine ⟨?_, ?_, ?_, ?_⟩
  · show ((shuffle g (List.range n)).drop (testCount n)).length +
      ((shuffle g (List.range n)).take (testCount n)).length = n
    rw [List.length_drop, List.length_take, hlen]
    omega
  · intro i hdrop htake
    exact List.disjoint_take_drop hnodup (le_refl (testCount n)) htake hdrop
  · show ((shuffle g (List.range n)).take (testCount n)).length = (n + 3) / 4
    rw [List.length_take, hlen]
    unfold testCount
    omega
  · show ((shuffle g (List.range n)).drop (testCount n)).length = n - (n + 3) / 4
    rw [List.length_drop, hlen]
    unfold testCount
    omega

/-- C4 counterexample: on a 5-row table, seeded as the notebook seeds (40), the
split produces 3 training rows and 2 test rows — the sizes sum to 5, but the
train:test ratio is 3:2, not the exact 75:25 = 3:1 the claim fixes for every
input table. -/
theorem split_ratio_not_exact_on_five_rows :
    (train_test_split (npSeedState 40) 5).1.length = 3 ∧
    (train_test_split (npSeedState 40) 5).2.length = 2 ∧
    ¬ ((train_test_split (npSeedState 40) 5).1.length * 25 =
        (train_test_split (npSeedState 40) 5).2.length * 75) := by
  decide

/-- dot product of two real vectors (the shorter one pads the zip). -/
noncomputable def dotList (w x : List ℝ) : ℝ := (List.zipWith (· * ·) w x).sum

/-- Modelled from the spec: the soft-thresholding operator coordinate descent uses
for the L1 part of the ElasticNet penalty. -/
noncomputable def softThreshold (z g : ℝ) : ℝ :=
  if g < z then z - g else if z < -g then z + g else 0

/-- column `j` of a row-major table. -/
def column (X : List (List ℝ)) (j : ℕ) : List ℝ := X.map (fun row => row.getD j 0)

/-- Modelled from the spec: one cyclic coordinate-descent update of coordinate `j`
for the ElasticNet objective with hyperparameters `a` (`alpha`) and `t`
(`l1_ratio`). -/
noncomputable def cdUpdate (a t : ℝ) (X : List (List ℝ)) (y : List ℝ)
    (w : List ℝ) (j : ℕ) : ℝ :=
  let n : ℝ := X.length
  let xj := column X j
  let resid := List.zipWith (fun yi row => yi - dotList w row) y X
  let sq := (xj.map (fun v => v ^ 2)).sum / n
  let rho := (List.zipWith (· * ·) xj resid).sum / n + w.getD j 0 * sq
  softThreshold rho (a * t) / (sq + a * (1 - t))

/-- one full cyclic sweep over all coordinates. -/
noncomputable def cdSweep (a t : ℝ) (X : List (List ℝ)) (y : List ℝ)
    (w : List ℝ) : List ℝ :=
  (List.range w.length).foldl (fun wc j => wc.set j (cdUpdate a t X y wc j)) w

/-- Modelled from the spec: the ElasticNet fit (scikit-learn library code, not in
`src/`) — `max_iter = 1000` cyclic coordinate-descent sweeps from a zero
coefficient vector.  With the default `selection='cyclic'` the procedure consults
no randomness, so `random_state=42` (notebook cell 7) is accepted but unused and
the fit is a deterministic function of the training data and hyperparameters.
The intercept is absorbed into the coefficients; no claim depends on the numeric
coefficient values. -/
noncomputable def elasticNetFit (a t : ℝ) (X : List (List ℝ)) (y : List ℝ) : List ℝ :=
  (cdSweep a t X y)^[1000] (List.replicate (X.headD []).length 0)

/-- a run record accumulated by the tracking calls inside `with mlflow.start_run()`. -/
structure RunRecord where
  params : List (String × ℝ)
  metrics : List (String × ℝ)

/-- `mlflow.log_param`: append one named hyperparameter to the run record. -/
def log_param (r : RunRecord) (k : String) (v : ℝ) : RunRecord :=
  { r with params := r.params ++ [(k, v)] }

/-- `mlflow.log_metric`: append one named metric to the run record. -/
def log_metric (r : RunRecord) (k : String) (v : ℝ) : RunRecord :=
  { r with metrics := r.metrics ++ [(k, v)] }

/-- `alpha = 0.5`, fixed in notebook cell 7. -/
noncomputable def alphaValue : ℝ := 0.5

/-- `l1_ratio = 0.5`, fixed in notebook cell 7. -/
noncomputable def l1RatioValue : ℝ := 0.5

/-- the hard-coded 11-feature row the notebook sends to the invocation endpoint
(cell 12's JSON body). -/
noncomputable def servedRow : List ℝ :=
  [7.4, 0.70, 0.00, 1.9, 0.076, 11.0, 34.0, 0.9978, 3.51, 0.56, 9.4]

/-- index split the notebook's `train_test_split(data)` call performs, driven by
the global RNG state that `np.random.seed (seed)` just set. -/
def notebookSplit (seed n : ℕ) : List ℕ × List ℕ := train_test_split (npSeedState seed) n

/-- training rows of the run. -/
def notebookTrainRows (seed : ℕ) (data : List (List ℝ)) : List (List ℝ) :=
  (notebookSplit seed data.length).1.map (fun i => data.getD i [])

/-- test rows of the run. -/
def notebookTestRows (seed : ℕ) (data : List (List ℝ)) : List (List ℝ) :=
  (notebookSplit seed data.length).2.map (fun i => data.getD i [])

/-- coefficients of the fitted model: `lr.fit(train_x, train_y)` with the feature
columns (`quality`, column 12, dropped) against the target column. -/
noncomputable def notebookWeights (seed : ℕ) (data : List (List ℝ)) : List ℝ :=
  elasticNetFit alphaValue l1RatioValue
    ((notebookTrainRows seed data).map (fun row => row.take 11))
    ((notebookTrainRows seed data).map (fun row => row.getD 11 0))

/-- ground truth on the test partition (`test_y`). -/
noncomputable def notebookTestY (seed : ℕ) (data : List (List ℝ)) : List ℝ :=
  (notebookTestRows seed data).map (fun row => row.getD 11 0)

/-- predictions on the test partition (`lr.predict(test_x)`). -/
noncomputable def notebookPredicted (seed : ℕ) (data : List (List ℝ)) : List ℝ :=
  ((notebookTestRows seed data).map (fun row => row.take 11)).map
    (fun row => dotList (notebookWeights seed data) row)

/-- the metric triple of the run: `eval_metrics(test_y, predicted_qualities)`. -/
noncomputable def notebookMetrics (seed : ℕ) (data : List (List ℝ)) : ℝ × ℝ × ℝ :=
  eval_metrics (notebookTestY seed data) (notebookPredicted seed data)

/-- notebook cells 5 and 7 as one function: seed the global RNG, split the fetched
table, fit, predict, evaluate, and log the run; also the scalar answer the served
model gives for the hard-coded 11-feature row.  `entropy` models the ambient OS
entropy that would have initialised the numpy global RNG had the notebook not
called `np.random.seed`; the call overwrites that state, so `entropy` is dead. -/
noncomputable def notebookRun (seed entropy : ℕ) (data : List (List ℝ)) :
    RunRecord × ℝ :=
  let _g0 := entropy
  let m := notebookMetrics seed data
  let st1 := log_param ⟨[], []⟩ "alpha" alphaValue
  let st2 := log_param st1 "l1_ratio" l1RatioValue
  let st3 := log_metric st2 "rmse" m.1
  let st4 := log_metric st3 "r2" m.2.2
  let st5 := log_metric st4 "mae" m.2.1
  (st5, dotList (notebookWeights seed data) servedRow)

/-- C2: with the seed fixed, two complete runs of the pipeline (split, ElasticNet
fit, prediction on the hard-coded 11-feature row) produce exactly the same scalar
prediction, whatever ambient entropy each run starts from: the split consumes only
the RNG state that `np.random.seed` just set, and the cyclic-selection ElasticNet
fit consults no randomness, so nothing in the run depends on unseeded state. -/
theorem prediction_deterministic_under_seed (seed e1 e2 : ℕ) (data : List (List ℝ)) :
    (notebookRun seed e1 data).2 = (notebookRun seed e2 data).2 := rfl

/-- C8: the logged run record contains exactly the two hyperparameters `alpha` and
`l1_ratio` — with the values the fit used — and exactly the three metrics `rmse`,
`r2` and `mae`, valued at the triple `eval_metrics` computed on the test
partition; nothing else is logged. -/
theorem run_record_exact (entropy : ℕ) (data : List (List ℝ)) :
    (notebookRun 40 entropy data).1.params =
      [("alpha", alphaValue), ("l1_ratio", l1RatioValue)] ∧
    (notebookRun 40 entropy data).1.metrics =
      [("rmse", (eval_metrics (notebookTestY 40 data) (notebookPredicted 40 data)).1),
       ("r2", (eval_metrics (notebookTestY 40 data) (notebookPredicted 40 data)).2.2),
       ("mae", (eval_metrics (notebookTestY 40 data) (notebookPredicted 40 data)).2.1)] :=
  ⟨rfl, rfl⟩

end WineQuality
